import Mathlib

/-!
# Version & Conflict Engine — formal model

Shallow embedding of the event-versioning subsystem of a collaborative
event-management API (FastAPI + SQLAlchemy).  Sources embedded:

* `app/utils/conflicts.py`   — `detect_event_conflicts`
* `app/utils/versioning.py`  — `record_event_version`
* `app/routers/events.py`    — `create_event`, `update_event`,
  `batch_create_events`, the recurrence-expansion part of `list_events`
* `app/routers/versions.py`  — `get_diff`, `rollback_event`,
  `get_version_as_of`

Modelling conventions:

* Timezone-aware instants are modelled as `Int` (minutes since an epoch).
  ISO-8601 serialization of an instant is injective and order-preserving,
  so an `Int` stands in for both the datetime and its ISO string.
* Snapshot values (JSON primitives) are the inductive `Value`;
  `Value.dt v` stands for the ISO-8601 string produced by
  `datetime.isoformat()` on the instant `v` (constructor injectivity
  mirrors injectivity of the ISO encoding).
* The database session is a record of three tables (`events`,
  `event_versions`, `event_changes`); each handler is a function from a
  `DB` and its request data to a new `DB` plus a result.  Fresh row ids
  and clock readings (`datetime.utcnow()`) are passed explicitly.
-/

namespace NeoFi

/-- A JSON primitive stored inside an `EventVersion.snapshot`.
`Value.dt v` is the ISO-8601 string serializing the instant `v`. -/
inductive Value where
  | s (v : String)
  | i (v : Int)
  | dt (v : Int)
  | null
  deriving DecidableEq

/-- `str(x)` on a JSON primitive, `None` staying `NULL`
(`str(old_val) if old_val is not None else None` in `record_event_version`). -/
def Value.pyStr : Value → Option String
  | .s v => some v
  | .i v => some (toString v)
  | .dt v => some (toString v)
  | .null => none

/-- A live row of the `events` table (`app/models.py`, class `Event`). -/
structure Event where
  id : Nat
  title : String
  description : Option String
  start_datetime : Int
  end_datetime : Int
  creator_id : Nat
  version_number : Nat
  updated_at : Int
  recurrence_rule : Option String
  recurrence_end : Option Int
  deriving DecidableEq

/-- A snapshot: the JSON field map stored in `EventVersion.snapshot`.
Key iteration order of a Python dict is insertion order, so an ordered
association list is faithful. -/
abbrev Snapshot := List (String × Value)

/-- `snapshot.get(key)`: the Python `dict.get` returns `None` for a
missing key, which is indistinguishable from a stored `null`. -/
def snapGet (s : Snapshot) (k : String) : Value :=
  match s.lookup k with
  | some v => v
  | none => .null

/-- A row of `event_versions` (`app/models.py`, class `EventVersion`).
The surrogate primary key is dropped; rows are referenced by the unique
pair `(event_id, version_number)`. -/
structure EventVersion where
  event_id : Nat
  version_number : Nat
  snapshot : Snapshot
  created_at : Int
  created_by_id : Nat
  deriving DecidableEq

/-- A row of `event_changes` (`app/models.py`, class `EventChange`),
referencing its version by `(event_id, version_number)`. -/
structure EventChange where
  event_id : Nat
  version_number : Nat
  field_name : String
  old_value : Option String
  new_value : Option String
  changed_at : Int
  deriving DecidableEq

/-- The stores the subsystem touches. -/
structure DB where
  events : List Event
  versions : List EventVersion
  changes : List EventChange
  deriving DecidableEq

def DB.empty : DB := ⟨[], [], []⟩

/-! ## Conflict detector (`app/utils/conflicts.py`) -/

/-- The SQL `or_` of the three `and_` clauses in `detect_event_conflicts`:
the stored interval is `[ev.start_datetime, ev.end_datetime)`, the
candidate is `[s, e)`. -/
def overlapsSql (ev : Event) (s e : Int) : Bool :=
  (decide (ev.start_datetime ≤ s) && decide (s < ev.end_datetime)) ||
  (decide (ev.start_datetime < e) && decide (e ≤ ev.end_datetime)) ||
  (decide (s ≤ ev.start_datetime) && decide (ev.end_datetime ≤ e))

/-- `detect_event_conflicts(db, start, end, user_id, exclude_event_id)`.
The exclusion clause is added under Python truthiness
(`if exclude_event_id:`), so `exclude = some 0` adds no clause. -/
def detect_event_conflicts (events : List Event) (s e : Int) (user_id : Nat)
    (exclude_event_id : Option Nat) : List Event :=
  let base := events.filter (fun ev =>
    decide (ev.creator_id = user_id) && overlapsSql ev s e)
  match exclude_event_id with
  | none => base
  | some x => if x = 0 then base else base.filter (fun ev => decide (ev.id ≠ x))

/-- The spec's own overlap predicate on half-open intervals:
`[S, E)` and `[s, e)` conflict iff `S < e ∧ s < E`. -/
def specOverlap (S E s e : Int) : Prop := S < e ∧ s < E

/-! ## Snapshot codec and diff engine (`app/utils/versioning.py`,
`app/routers/versions.py:get_diff`) -/

/-- A nullable text field as a snapshot value. -/
def optStr : Option String → Value
  | none => .null
  | some v => .s v

/-- Step 2 of `record_event_version`: `new_snapshot`, the dict of all
stable fields in insertion order.  The `start_datetime`/`end_datetime`
columns are non-nullable and a Python `datetime` is always truthy, so
the `if ... else None` guards never yield `None`; `updated_at` is
likewise non-nullable (`server_default=func.now()`). -/
def buildSnapshot (e : Event) : Snapshot :=
  [("title", .s e.title),
   ("description", optStr e.description),
   ("start_datetime", .dt e.start_datetime),
   ("end_datetime", .dt e.end_datetime),
   ("creator_id", .i e.creator_id),
   ("created_at", .dt e.updated_at)]

/-- The field-level diff loop shared by `record_event_version` (step 4)
and `get_diff`: iterate the new snapshot's items, look each key up in the
old snapshot with `.get`, and emit `(field_name, old_value, new_value)`
whenever the values differ. -/
def computeDiff (oldS newS : Snapshot) : List (String × Value × Value) :=
  newS.filterMap (fun kv =>
    let oldVal := snapGet oldS kv.1
    if oldVal ≠ kv.2 then some (kv.1, oldVal, kv.2) else none)

/-! ## Version store (`app/utils/versioning.py:record_event_version`) -/

/-- `SELECT ... ORDER BY version_number DESC LIMIT 1`: the element of the
list maximizing `f`, ties going to the later row. -/
def maxBy (f : α → Nat) : List α → Option α
  | [] => none
  | a :: l =>
    match maxBy f l with
    | none => some a
    | some b => if f b < f a then some a else some b

/-- All `event_versions` rows of one event. -/
def versionsFor (db : DB) (eid : Nat) : List EventVersion :=
  db.versions.filter (fun v => decide (v.event_id = eid))

/-- Step 1 of `record_event_version`: the highest-numbered existing
version of the event, if any. -/
def lastVersionFor (db : DB) (eid : Nat) : Option EventVersion :=
  maxBy (·.version_number) (versionsFor db eid)

/-- `record_event_version(db, event, user_id)` at clock reading `now`:
append one `EventVersion` row numbered `previous_max + 1` (or `1`), and,
when a previous version existed, one `EventChange` row per field whose
value differs from the previous stored snapshot. -/
def record_event_version (db : DB) (event : Event) (user_id : Nat)
    (now : Int) : DB × EventVersion :=
  let last := lastVersionFor db event.id
  let nextN := match last with
    | none => 1
    | some lv => lv.version_number + 1
  let snap := buildSnapshot event
  let vrow : EventVersion := ⟨event.id, nextN, snap, now, user_id⟩
  let newChanges := match last with
    | none => []
    | some lv => (computeDiff lv.snapshot snap).map (fun d =>
        EventChange.mk event.id nextN d.1 d.2.1.pyStr d.2.2.pyStr now)
  ({ db with versions := db.versions ++ [vrow],
             changes := db.changes ++ newChanges }, vrow)

/-! ## Event handlers (`app/routers/events.py`) -/

/-- The parsed request body of `POST /api/events` (`schemas.EventCreate`).
No validator constrains `end_datetime` against `start_datetime`. -/
structure EventCreate where
  title : String
  description : Option String
  start_datetime : Int
  end_datetime : Int
  recurrence_rule : Option String := none
  recurrence_end : Option Int := none
  deriving DecidableEq

/-- `create_event`: build the row (`version_number` takes the server
default `1`, `updated_at` the commit clock), commit it, then record the
first version.  The handler performs no interval validation and never
calls `detect_event_conflicts`. -/
def create_event (db : DB) (event_in : EventCreate) (user_id : Nat)
    (new_id : Nat) (now : Int) : DB × Event :=
  let new_event : Event :=
    { id := new_id
      title := event_in.title
      description := event_in.description
      start_datetime := event_in.start_datetime
      end_datetime := event_in.end_datetime
      creator_id := user_id
      version_number := 1
      updated_at := now
      recurrence_rule := event_in.recurrence_rule
      recurrence_end := event_in.recurrence_end }
  let db1 : DB := { db with events := db.events ++ [new_event] }
  ((record_event_version db1 new_event user_id now).1, new_event)

/-- `batch_create_events`: reject the whole batch with HTTP 400 as soon
as any item has `end_datetime <= start_datetime`; otherwise insert all
rows in one transaction (no version rows are recorded on this path). -/
def batch_create_events (db : DB) (items : List EventCreate) (user_id : Nat)
    (ids : List Nat) (now : Int) : Option DB :=
  if items.any (fun it => decide (it.end_datetime ≤ it.start_datetime)) then
    none
  else
    some { db with events := db.events ++
      (items.zip ids).map (fun p =>
        { id := p.2
          title := p.1.title
          description := p.1.description
          start_datetime := p.1.start_datetime
          end_datetime := p.1.end_datetime
          creator_id := user_id
          version_number := 1
          updated_at := now
          recurrence_rule := none
          recurrence_end := none }) }

/-- The parsed request body of `PUT /api/events/{id}`
(`schemas.EventUpdate`).  The `version_number` field is commented out in
the schema, and the pydantic config does not allow extra fields, so the
parsed model never carries a version number. -/
structure EventUpdate where
  title : Option String := none
  description : Option String := none
  start_datetime : Option Int := none
  end_datetime : Option Int := none
  recurrence_rule : Option String := none
  recurrence_end : Option Int := none
  deriving DecidableEq

/-- Python attribute lookup `event_in.version_number` on the parsed
`EventUpdate` model: the schema declares no such field (it is commented
out) and `model_extra` is empty, so the lookup always fails with
`AttributeError`. -/
def EventUpdate.version_number_attr (_ : EventUpdate) : Option Nat := none

/-- Step 3 of `update_event` (the field-application block, lines
277-292): `None`-guarded assignment for title/description/start/end,
unconditional assignment for the recurrence fields, then the
`version_number` bump; `updated_at` is refreshed by the column's
`onupdate=func.now()` at commit. -/
def applyEventUpdate (event : Event) (event_in : EventUpdate) (now : Int) :
    Event :=
  { event with
    title := match event_in.title with
      | none => event.title
      | some t => t
    description := match event_in.description with
      | none => event.description
      | some d => some d
    start_datetime := match event_in.start_datetime with
      | none => event.start_datetime
      | some s => s
    end_datetime := match event_in.end_datetime with
      | none => event.end_datetime
      | some e => e
    recurrence_rule := event_in.recurrence_rule
    recurrence_end := event_in.recurrence_end
    version_number := event.version_number + 1
    updated_at := now }

/-- `scalar_one_or_none` on `SELECT ... WHERE Event.id == event_id`. -/
def findEvent (db : DB) (eid : Nat) : Option Event :=
  db.events.find? (fun e => decide (e.id = eid))

/-- Replace the live row of an event id in the events table. -/
def putEvent (db : DB) (e : Event) : DB :=
  { db with events := db.events.map (fun x => if x.id = e.id then e else x) }

/-- Outcome of `PUT /api/events/{id}`. -/
inductive UpdateResult where
  | notFound                      -- HTTP 404
  | attributeError                -- uncaught `AttributeError` → HTTP 500
  | staleVersion (current : Nat)  -- HTTP 409
  | ok (e : Event)
  deriving DecidableEq

/-- `update_event`: fetch the row, read `event_in.version_number` (which
raises `AttributeError`, see `EventUpdate.version_number_attr`), compare
against the live counter, apply the field changes, bump, commit, record
a version.  Everything after the attribute read is dead code in the
shipped source but is embedded faithfully. -/
def update_event (db : DB) (eid : Nat) (event_in : EventUpdate)
    (user_id : Nat) (now : Int) : DB × UpdateResult :=
  match findEvent db eid with
  | none => (db, .notFound)
  | some event =>
    match event_in.version_number_attr with
    | none => (db, .attributeError)
    | some vn =>
      if event.version_number ≠ vn then
        (db, .staleVersion event.version_number)
      else
        let event1 := applyEventUpdate event event_in now
        let db1 := putEvent db event1
        ((record_event_version db1 event1 user_id now).1, .ok event1)

/-! ## Rollback and time travel (`app/routers/versions.py`) -/

/-- `scalar_one_or_none` on the unique pair `(event_id, version_number)`. -/
def findVersion (db : DB) (eid vn : Nat) : Option EventVersion :=
  db.versions.find? (fun v => decide (v.event_id = eid ∧ v.version_number = vn))

/-- Step 4 of `rollback_event`: read the four mutable fields back out of
a stored snapshot (`snapshot.get("title")` etc., with
`parser.isoparse` on the two datetimes).  The title and description
assignments cannot fail in Python; the `none` branch models an
`isoparse` failure or a shape the system never writes, and is proved
unreachable for snapshots produced by `buildSnapshot`
(`restoreFields_buildSnapshot`). -/
def restoreFields (s : Snapshot) :
    Option (String × Option String × Int × Int) :=
  match snapGet s "title", snapGet s "description",
        snapGet s "start_datetime", snapGet s "end_datetime" with
  | .s t, .s d, .dt sd, .dt ed => some (t, some d, sd, ed)
  | .s t, .null, .dt sd, .dt ed => some (t, none, sd, ed)
  | _, _, _, _ => none

/-- Outcome of `POST /api/events/{id}/rollback/{version_number}`. -/
inductive RollbackResult where
  | notFound          -- event missing → HTTP 404
  | versionNotFound   -- version missing → HTTP 404
  | decodeError       -- unreachable for system-written snapshots
  | ok (v : EventVersion)
  deriving DecidableEq

/-- `rollback_event`: overwrite the live row's title, description,
start and end from the target version's snapshot (`creator_id` and the
live `version_number` are left untouched; `updated_at` refreshes at
commit), then record a brand-new version numbered `previous_max + 1`. -/
def rollback_event (db : DB) (eid vn : Nat) (user_id : Nat) (now : Int) :
    DB × RollbackResult :=
  match findEvent db eid with
  | none => (db, .notFound)
  | some event =>
    match findVersion db eid vn with
    | none => (db, .versionNotFound)
    | some old_version =>
      match restoreFields old_version.snapshot with
      | none => (db, .decodeError)
      | some fs =>
        let event1 := { event with
          title := fs.1
          description := fs.2.1
          start_datetime := fs.2.2.1
          end_datetime := fs.2.2.2
          updated_at := now }
        let db1 := putEvent db event1
        let res := record_event_version db1 event1 user_id now
        (res.1, .ok res.2)

/-- `get_version_as_of` (`GET /api/events/at`): verify the event exists,
then take the version with the greatest `version_number` among those
with `created_at <= at`; `none` models either HTTP 404. -/
def get_version_as_of (db : DB) (eid : Nat) (at_ : Int) :
    Option EventVersion :=
  match findEvent db eid with
  | none => none
  | some _ =>
    maxBy (·.version_number)
      (db.versions.filter (fun v =>
        decide (v.event_id = eid) && decide (v.created_at ≤ at_)))

/-! ## Recurrence expander (`app/routers/events.py:list_events`)

The handler delegates parsing and replay to the external
`dateutil.rrule` library (`rrulestr(rule, dtstart=ev.start_datetime)`
and `rule.between(start_from, start_to, inc=True)`).  Modelled from the
spec: the rule grammar is restricted to the vocabulary the spec names —
frequency (`DAILY`/`WEEKLY`), `INTERVAL`, optional `COUNT`, optional
`UNTIL`; anything else is malformed.  `UNTIL` values are written as the
integer minute-count of the instant.  Day-of-week constraints are left
out.  A parsed rule's occurrences are `dtstart + n * interval * step`,
cut off by `COUNT`/`UNTIL`; `between` keeps those inside the inclusive
window.  This mirrors the library contract the spec states (§4.5). -/

inductive Freq where
  | daily
  | weekly
  deriving DecidableEq

/-- Length of one frequency unit, in minutes. -/
def Freq.stepMinutes : Freq → Int
  | .daily => 1440
  | .weekly => 10080

structure RRule where
  freq : Freq
  interval : Nat
  count : Option Nat
  untilTime : Option Int
  deriving DecidableEq

/-- Gap between consecutive occurrences, in minutes. -/
def RRule.step (r : RRule) : Int := (r.interval : Int) * r.freq.stepMinutes

/-- The `n`-th occurrence start of the rule anchored at `dtstart`. -/
def RRule.occAt (r : RRule) (dtstart : Int) (n : Nat) : Int :=
  dtstart + (n : Int) * r.step

/-- `COUNT` guard: occurrence index below the repeat count, if any. -/
def RRule.okCount (r : RRule) (n : Nat) : Bool :=
  match r.count with
  | none => true
  | some c => decide (n < c)

/-- `UNTIL` guard: occurrence start at or before the rule's bound. -/
def RRule.okUntil (r : RRule) (t : Int) : Bool :=
  match r.untilTime with
  | none => true
  | some u => decide (t ≤ u)

/-- `rule.between(a, b, inc=True)`: every occurrence start inside
`[a, b]`, replayed from the anchor `dtstart`.  The `range` bound is
large enough to cover every occurrence not past `b`
(`mem_ruleBetween`). -/
def ruleBetween (r : RRule) (dtstart a b : Int) : List Int :=
  (List.range ((b - dtstart).toNat / r.step.toNat + 1)).filterMap (fun n =>
    let t := r.occAt dtstart n
    if r.okCount n && r.okUntil t && decide (a ≤ t) && decide (t ≤ b) then
      some t
    else none)

/-- Split a character list at every occurrence of `c`. -/
def splitOnChar (c : Char) : List Char → List (List Char)
  | [] => [[]]
  | x :: xs =>
    match splitOnChar c xs with
    | [] => [[x]]
    | y :: ys => if x = c then [] :: y :: ys else (x :: y) :: ys

/-- Decimal digit accumulator for rule-part values. -/
def digitsToNat : List Char → Nat → Option Nat
  | [], acc => some acc
  | c :: cs, acc =>
    if c.isDigit then digitsToNat cs (acc * 10 + (c.toNat - 48)) else none

/-- A non-empty all-digit token, as a number. -/
def parseNatToken (cs : List Char) : Option Nat :=
  match cs with
  | [] => none
  | _ => digitsToNat cs 0

/-- Fields accumulated while reading `KEY=VALUE` parts of a rule. -/
structure RuleAcc where
  freq : Option Freq
  interval : Nat
  count : Option Nat
  untilTime : Option Int
  deriving DecidableEq

/-- One `KEY=VALUE` part.  `INTERVAL=0` would make the library loop
forever on `between`, so it is treated as malformed. -/
def parseRulePart (acc : RuleAcc) (p : List Char) : Option RuleAcc :=
  match splitOnChar '=' p with
  | [k, v] =>
    if k = "FREQ".toList then
      if v = "DAILY".toList then some { acc with freq := some .daily }
      else if v = "WEEKLY".toList then some { acc with freq := some .weekly }
      else none
    else if k = "INTERVAL".toList then
      match parseNatToken v with
      | some (n + 1) => some { acc with interval := n + 1 }
      | _ => none
    else if k = "COUNT".toList then
      match parseNatToken v with
      | some n => some { acc with count := some n }
      | none => none
    else if k = "UNTIL".toList then
      match parseNatToken v with
      | some n => some { acc with untilTime := some (n : Int) }
      | none => none
    else none
  | _ => none

/-- `rrulestr(s, ...)`, returning `none` where the library raises:
semicolon-separated `KEY=VALUE` parts, `FREQ` mandatory, `INTERVAL`
defaulting to 1. -/
def parseRRule (s : String) : Option RRule :=
  match (splitOnChar ';' s.toList).foldlM parseRulePart
      ⟨none, 1, none, none⟩ with
  | none => none
  | some acc =>
    match acc.freq with
    | none => none
    | some f => some ⟨f, acc.interval, acc.count, acc.untilTime⟩

/-- The response schema `schemas.EventRead`, used for the virtual
occurrence objects built by `list_events`. -/
structure EventRead where
  id : Nat
  creator_id : Nat
  title : String
  description : Option String
  start_datetime : Int
  end_datetime : Int
  recurrence_rule : Option String
  recurrence_end : Option Int
  version_number : Nat
  updated_at : Int
  deriving DecidableEq

/-- The occurrence object built inside the expansion loop: starts at the
occurrence instant, ends one master-duration later, all other fields
copied from the master. -/
def mkOccurrence (ev : Event) (occ_start : Int) : EventRead :=
  { id := ev.id
    creator_id := ev.creator_id
    title := ev.title
    description := ev.description
    start_datetime := occ_start
    end_datetime := occ_start + (ev.end_datetime - ev.start_datetime)
    recurrence_rule := ev.recurrence_rule
    recurrence_end := ev.recurrence_end
    version_number := ev.version_number
    updated_at := ev.updated_at }

/-- One iteration of the expansion loop of `list_events` (steps 3): skip
falsy rules (`if not ev.recurrence_rule`), skip rules `rrulestr` rejects
(`except ... continue`), otherwise map every occurrence in the window to
a virtual `EventRead`.  The stored `recurrence_end` column is never
consulted here. -/
def expandEvent (ev : Event) (start_from start_to : Int) : List EventRead :=
  match ev.recurrence_rule with
  | none => []
  | some rs =>
    if rs = "" then []
    else
      match parseRRule rs with
      | none => []
      | some r =>
        (ruleBetween r ev.start_datetime start_from start_to).map
          (mkOccurrence ev)

/-- The `rec_q` filter of `list_events` (permission clause aside): which
recurring masters are picked up for expansion for a window. -/
def recurringSelected (ev : Event) (start_from start_to : Int) : Bool :=
  ev.recurrence_rule.isSome && decide (ev.start_datetime ≤ start_to) &&
  (match ev.recurrence_end with
   | none => true
   | some re => decide (re ≥ start_from))

/-! ## Derived readings of the stores -/

/-- The authoritative version number of the version store: the highest
existing `EventVersion.version_number` of the event, `0` if none. -/
def maxVn (db : DB) (eid : Nat) : Nat :=
  match lastVersionFor db eid with
  | none => 0
  | some v => v.version_number

/-- Whether a rollback call was accepted. -/
def RollbackResult.isOk : RollbackResult → Bool
  | .ok _ => true
  | _ => false

/-! ## Concrete fixtures (the spec's own scenarios, instants in minutes:
`2025-01-01T10:00Z ↦ 600`, `10:30 ↦ 630`, `11:00 ↦ 660`, `11:30 ↦ 690`) -/

def exCreateA : EventCreate :=
  { title := "A", description := none, start_datetime := 600, end_datetime := 660 }

def exCreateB : EventCreate :=
  { title := "B", description := none, start_datetime := 630, end_datetime := 690 }

def exBadCreate : EventCreate :=
  { title := "bad", description := none, start_datetime := 660, end_datetime := 600 }

/-- The store after owner `7` created event `A` as row `1` at time 100. -/
def exDbA : DB := (create_event DB.empty exCreateA 7 1 100).1

def exEventA : Event := (create_event DB.empty exCreateA 7 1 100).2

/-- The store after a further rollback of event `1` to version 1 at
time 200 (it then holds versions 1 and 2). -/
def exDbA2 : DB := (rollback_event exDbA 1 1 7 200).1

/-- A daily recurring master whose stored `recurrence_end` (minute 2880,
end of day 2) is earlier than where its bare `FREQ=DAILY` rule stops. -/
def exRec : Event :=
  { id := 2, title := "R", description := none, start_datetime := 0,
    end_datetime := 60, creator_id := 7, version_number := 1,
    updated_at := 0, recurrence_rule := some "FREQ=DAILY",
    recurrence_end := some 2880 }

/-- The spec's recurrence scenario: weekly, four occurrences. -/
def exWeekly : Event :=
  { id := 3, title := "W", description := none, start_datetime := 0,
    end_datetime := 60, creator_id := 7, version_number := 1,
    updated_at := 0, recurrence_rule := some "FREQ=WEEKLY;COUNT=4",
    recurrence_end := none }

def exRuleWeekly : RRule := ⟨.weekly, 1, some 4, none⟩

/-- The spec's diff example, snapshots A and B. -/
def snapX : Snapshot := [("title", .s "X"), ("description", .s "Y")]

def snapY : Snapshot := [("title", .s "X"), ("description", .s "Z")]

/-! ## Helper lemmas -/

theorem maxBy_le_of_mem (f : α → Nat) (l : List α) (a : α) (ha : a ∈ l) :
    ∃ b, maxBy f l = some b ∧ f a ≤ f b := by
  induction l with
  | nil => simp at ha
  | cons x tl ih =>
    rcases List.mem_cons.mp ha with rfl | hmem
    · rcases h : maxBy f tl with _ | b
      · exact ⟨a, by simp [maxBy, h], le_rfl⟩
      · by_cases hc : f b < f a
        · exact ⟨a, by simp [maxBy, h, hc], le_rfl⟩
        · exact ⟨b, by simp [maxBy, h, hc], le_of_not_lt hc⟩
    · obtain ⟨b, hb, hle⟩ := ih hmem
      by_cases hc : f b < f x
      · exact ⟨x, by simp [maxBy, hb, hc], hle.trans hc.le⟩
      · exact ⟨b, by simp [maxBy, hb, hc], hle⟩

theorem maxBy_mem (f : α → Nat) (l : List α) (b : α) (h : maxBy f l = some b) :
    b ∈ l := by
  induction l generalizing b with
  | nil => simp [maxBy] at h
  | cons x tl ih =>
    rcases htl : maxBy f tl with _ | c
    · simp only [maxBy, htl] at h
      exact List.mem_cons.mpr (.inl (Option.some_inj.mp h).symm)
    · simp only [maxBy, htl] at h
      by_cases hc : f c < f x
      · rw [if_pos hc] at h
        exact List.mem_cons.mpr (.inl (Option.some_inj.mp h).symm)
      · rw [if_neg hc] at h
        exact List.mem_cons.mpr (.inr ((Option.some_inj.mp h) ▸ ih c htl))

theorem maxBy_eq_none (f : α → Nat) (l : List α) :
    maxBy f l = none ↔ l = [] := by
  cases l with
  | nil => simp [maxBy]
  | cons x tl =>
    simp only [maxBy]
    rcases htl : maxBy f tl with _ | c
    · simp
    · simp only
      split <;> simp

/-- An existing version's number never exceeds the store's maximum. -/
theorem le_maxVn (db : DB) (eid : Nat) (v : EventVersion)
    (hmem : v ∈ db.versions) (hid : v.event_id = eid) :
    v.version_number ≤ maxVn db eid := by
  have hv : v ∈ versionsFor db eid := by
    simp [versionsFor, List.mem_filter, hmem, hid]
  obtain ⟨b, hb, hle⟩ :=
    maxBy_le_of_mem (·.version_number) (versionsFor db eid) v hv
  simpa [maxVn, lastVersionFor, hb] using hle

theorem findEvent_some (db : DB) (eid : Nat) (ev : Event)
    (h : findEvent db eid = some ev) : ev.id = eid ∧ ev ∈ db.events := by
  have h1 := List.find?_some h
  have h2 := List.mem_of_find?_eq_some h
  simpa using ⟨of_decide_eq_true h1, h2⟩

theorem findVersion_some (db : DB) (eid vn : Nat) (v : EventVersion)
    (h : findVersion db eid vn = some v) :
    v ∈ db.versions ∧ v.event_id = eid ∧ v.version_number = vn := by
  have h1 := List.find?_some h
  have h2 := List.mem_of_find?_eq_some h
  have h3 := of_decide_eq_true h1
  exact ⟨h2, h3.1, h3.2⟩

/-- `record_event_version` written out: the appended version row is
fully determined by the event, the author, the clock, and the store's
current maximum version number. -/
theorem record_event_version_eq (db : DB) (e : Event) (uid : Nat) (now : Int) :
    record_event_version db e uid now =
      ({ db with
         versions := db.versions ++
           [⟨e.id, maxVn db e.id + 1, buildSnapshot e, now, uid⟩],
         changes := db.changes ++
           (match lastVersionFor db e.id with
            | none => []
            | some lv =>
              (computeDiff lv.snapshot (buildSnapshot e)).map (fun d =>
                EventChange.mk e.id (maxVn db e.id + 1) d.1 d.2.1.pyStr
                  d.2.2.pyStr now)) },
       ⟨e.id, maxVn db e.id + 1, buildSnapshot e, now, uid⟩) := by
  rcases h : lastVersionFor db e.id with _ | lv <;>
    simp [record_event_version, maxVn, h]

/-- Replacing a live row keeps every version row (`putEvent` only maps
the events table). -/
theorem versionsFor_putEvent (db : DB) (e : Event) (eid : Nat) :
    versionsFor (putEvent db e) eid = versionsFor db eid := rfl

theorem maxVn_putEvent (db : DB) (e : Event) (eid : Nat) :
    maxVn (putEvent db e) eid = maxVn db eid := rfl

theorem find?_map_put (l : List Event) (eid : Nat) (ev e1 : Event)
    (h : l.find? (fun e => decide (e.id = eid)) = some ev)
    (hid : e1.id = ev.id) :
    (l.map (fun x => if x.id = e1.id then e1 else x)).find?
      (fun e => decide (e.id = eid)) = some e1 := by
  have hev' := List.find?_some h
  have hev : ev.id = eid := of_decide_eq_true hev'
  induction l with
  | nil => simp at h
  | cons y tl ih =>
    by_cases hy : y.id = eid
    · rw [List.find?_cons_of_pos _ (by simpa using hy)] at h
      have hyev : y = ev := Option.some_inj.mp h
      have hye1 : y.id = e1.id := by rw [hyev, ← hid]
      simp only [List.map_cons, if_pos hye1]
      exact List.find?_cons_of_pos _ (by simp [hid, hev])
    · rw [List.find?_cons_of_neg _ (by simpa using hy)] at h
      have hye1 : ¬ y.id = e1.id := by rw [hid, hev]; exact hy
      simp only [List.map_cons, if_neg hye1]
      rw [List.find?_cons_of_neg _ (by simpa using hy)]
      exact ih h

/-- After `putEvent` with a row of the same id, the lookup returns the
new row. -/
theorem findEvent_putEvent (db : DB) (eid : Nat) (ev e1 : Event)
    (h : findEvent db eid = some ev) (hid : e1.id = ev.id) :
    findEvent (putEvent db e1) eid = some e1 :=
  find?_map_put db.events eid ev e1 h hid

/-- The version rows of an event after `record_event_version` ran for
that same event. -/
theorem versionsFor_record_self (db : DB) (e : Event) (uid : Nat) (now : Int) :
    versionsFor (record_event_version db e uid now).1 e.id =
      versionsFor db e.id ++
        [⟨e.id, maxVn db e.id + 1, buildSnapshot e, now, uid⟩] := by
  rw [record_event_version_eq]
  simp [versionsFor, List.filter_append]

/-- The version rows of a freshly created event. -/
theorem versionsFor_create (db : DB) (inp : EventCreate) (uid nid : Nat)
    (now : Int) :
    versionsFor (create_event db inp uid nid now).1 nid =
      versionsFor db nid ++
        [⟨nid, maxVn db nid + 1,
          buildSnapshot (create_event db inp uid nid now).2, now, uid⟩] :=
  versionsFor_record_self
    { db with events := db.events ++ [(create_event db inp uid nid now).2] }
    (create_event db inp uid nid now).2 uid now

/-! ## Claim theorems -/

/-- C4: for well-formed intervals (`start < end` on the candidate and on
every stored event), the conflict detector's three-clause SQL test is
exactly the spec's half-open overlap predicate `S < e ∧ s < E`, and the
detector returns every event of the owner satisfying it; touching
endpoints never conflict. -/
theorem detect_conflicts_spec (events : List Event) (s e : Int) (uid : Nat)
    (hcand : s < e)
    (hwf : ∀ ev ∈ events, ev.start_datetime < ev.end_datetime) :
    (∀ ev, ev ∈ detect_event_conflicts events s e uid none ↔
      (ev ∈ events ∧ ev.creator_id = uid ∧
       ev.start_datetime < e ∧ s < ev.end_datetime)) ∧
    (∀ ev ∈ events, (ev.end_datetime = s ∨ ev.start_datetime = e) →
       ev ∉ detect_event_conflicts events s e uid none) := by
  have hmem : ∀ ev, ev ∈ detect_event_conflicts events s e uid none ↔
      (ev ∈ events ∧ ev.creator_id = uid ∧ overlapsSql ev s e = true) := by
    intro ev
    simp [detect_event_conflicts, List.mem_filter, and_assoc]
  constructor
  · intro ev
    rw [hmem ev]
    constructor
    · rintro ⟨hm, hc, hov⟩
      have hw := hwf ev hm
      simp only [overlapsSql, Bool.or_eq_true, Bool.and_eq_true,
        decide_eq_true_eq] at hov
      exact ⟨hm, hc, by omega, by omega⟩
    · rintro ⟨hm, hc, h1, h2⟩
      have hw := hwf ev hm
      refine ⟨hm, hc, ?_⟩
      simp only [overlapsSql, Bool.or_eq_true, Bool.and_eq_true,
        decide_eq_true_eq]
      omega
  · intro ev hm hend hin
    rw [hmem ev] at hin
    have hw := hwf ev hm
    obtain ⟨_, _, hov⟩ := hin
    simp only [overlapsSql, Bool.or_eq_true, Bool.and_eq_true,
      decide_eq_true_eq] at hov
    rcases hend with h | h <;> omega

/-- Witness for C4: the spec's scenario, event A `[600, 660)` against
candidate `[630, 690)` of the same owner. -/
theorem detect_conflicts_spec_witness :
    ((630 : Int) < 690) ∧
    (∀ ev ∈ [exEventA], ev.start_datetime < ev.end_datetime) ∧
    (exEventA ∈ detect_event_conflicts [exEventA] 630 690 7 none ↔
      (exEventA ∈ [exEventA] ∧ exEventA.creator_id = 7 ∧
       exEventA.start_datetime < 690 ∧ 630 < exEventA.end_datetime)) :=
  ⟨by decide, by decide,
   (detect_conflicts_spec [exEventA] 630 690 7 (by decide) (by decide)).1
     exEventA⟩

/-- C1 (failing input): with event A `[600, 660)` committed for owner 7,
the detector does flag candidate B `[630, 690)` as conflicting with A —
but `create_event` never invokes it: B is committed as row 2 and gets
its own version row, instead of being rejected with `ConflictError`. -/
theorem create_event_commits_despite_conflict :
    (detect_event_conflicts exDbA.events 630 690 7 none).map Event.id
      = [1] ∧
    (create_event exDbA exCreateB 7 2 200).2.id = 2 ∧
    (create_event exDbA exCreateB 7 2 200).2 ∈
      (create_event exDbA exCreateB 7 2 200).1.events ∧
    (versionsFor (create_event exDbA exCreateB 7 2 200).1 2).map
      EventVersion.version_number = [1] := by decide

/-- C2 (failing behaviour): `update_event` can only end in 404 or in an
uncaught `AttributeError` (HTTP 500), because the parsed `EventUpdate`
carries no `version_number` attribute; in both cases the store is
returned unchanged — the stale-version 409 branch and the field
application are unreachable. -/
theorem update_event_never_reaches_version_check (db : DB) (eid : Nat)
    (event_in : EventUpdate) (uid : Nat) (now : Int) :
    update_event db eid event_in uid now = (db, .notFound) ∨
    update_event db eid event_in uid now = (db, .attributeError) := by
  rcases hfe : findEvent db eid with _ | ev <;>
    simp [update_event, hfe, EventUpdate.version_number_attr]

/-- C3 (counterexample): create event 1, then roll it back to version 1.
The rollback is accepted and appends version 2, but the live
`Event.version_number` stays at 1, so the live counter no longer equals
the highest `EventVersion.version_number`. -/
theorem rollback_leaves_live_counter_behind :
    (rollback_event exDbA 1 1 7 200).2.isOk = true ∧
    (findEvent (rollback_event exDbA 1 1 7 200).1 1).map Event.version_number
      = some 1 ∧
    maxVn (rollback_event exDbA 1 1 7 200).1 1 = 2 := by decide

/-- C3 (amended): a create for a fresh id writes version 1 and sets the
live counter to 1; an accepted rollback appends exactly one version row
numbered `previous_max + 1` while leaving the live counter unchanged;
and no update is ever accepted (so updates never advance the lineage). -/
theorem version_lineage_amended (db : DB) :
    (∀ inp uid nid now, versionsFor db nid = [] →
       (create_event db inp uid nid now).2.version_number = 1 ∧
       (versionsFor (create_event db inp uid nid now).1 nid).map
         EventVersion.version_number = [1]) ∧
    (∀ eid vn uid now newv,
       (rollback_event db eid vn uid now).2 = .ok newv →
       (rollback_event db eid vn uid now).1.versions =
         db.versions ++ [newv] ∧
       newv.event_id = eid ∧
       newv.version_number = maxVn db eid + 1 ∧
       (∀ ev, findEvent db eid = some ev →
          (findEvent (rollback_event db eid vn uid now).1 eid).map
            Event.version_number = some ev.version_number)) ∧
    (∀ eid u uid now, (update_event db eid u uid now).1 = db ∧
       ∀ e, (update_event db eid u uid now).2 ≠ .ok e) := by
  refine ⟨?_, ?_, ?_⟩
  · intro inp uid nid now hfresh
    have hmax : maxVn db nid = 0 := by
      simp [maxVn, lastVersionFor, hfresh, maxBy]
    refine ⟨rfl, ?_⟩
    rw [versionsFor_create, hfresh, hmax]
    simp
  · intro eid vn uid now newv hok
    rcases hev : findEvent db eid with _ | ev
    · simp [rollback_event, hev] at hok
    rcases hv : findVersion db eid vn with _ | v
    · simp [rollback_event, hev, hv] at hok
    rcases hr : restoreFields v.snapshot with _ | fs
    · simp [rollback_event, hev, hv, hr] at hok
    obtain ⟨t, d, sd, ed⟩ := fs
    have hids := findEvent_some db eid ev hev
    simp only [rollback_event, hev, hv, hr, record_event_version_eq] at hok ⊢
    simp only [RollbackResult.ok.injEq] at hok
    refine ⟨?_, ?_, ?_, ?_⟩
    · rw [← hok]
      rfl
    · rw [← hok]
      exact hids.1
    · rw [← hok]
      simp only [maxVn_putEvent]
      rw [hids.1]
    · intro ev' hev'
      have hee : ev' = ev := by
        simp only [hev, Option.some_inj] at hev'
        exact hev'.symm
      subst hee
      have hput := findEvent_putEvent db eid ev'
        { ev' with
          title := t
          description := d
          start_datetime := sd
          end_datetime := ed
          updated_at := now } hev rfl
      simp only [findEvent] at hput ⊢
      rw [hput]
      rfl
  · intro eid u uid now
    rcases hfe : findEvent db eid with _ | ev <;>
      simp [update_event, hfe, EventUpdate.version_number_attr]

/-- Witness for C3 (amended): creating event 1 in the empty store yields
live counter 1 and the single version row numbered 1. -/
theorem version_lineage_amended_witness :
    versionsFor DB.empty 1 = [] ∧
    (create_event DB.empty exCreateA 7 1 100).2.version_number = 1 ∧
    (versionsFor exDbA 1).map EventVersion.version_number = [1] :=
  ⟨by decide,
   ((version_lineage_amended DB.empty).1 exCreateA 7 1 100 (by decide)).1,
   ((version_lineage_amended DB.empty).1 exCreateA 7 1 100 (by decide)).2⟩

/-- C9 (failing input): a single `create_event` with
`end_datetime <= start_datetime` is committed (no `ValidationError`),
while `batch_create_events` rejects the very same payload — so the
`end > start` invariant is not enforced on the single-create path. -/
theorem create_event_accepts_inverted_interval :
    (create_event DB.empty exBadCreate 7 1 100).2.end_datetime ≤
      (create_event DB.empty exBadCreate 7 1 100).2.start_datetime ∧
    (create_event DB.empty exBadCreate 7 1 100).2 ∈
      (create_event DB.empty exBadCreate 7 1 100).1.events ∧
    batch_create_events DB.empty [exBadCreate] 7 [1] 100 = none := by
  decide

/-- C10: the field-application block of `update_event` copies
`recurrence_rule`/`recurrence_end` from the request unconditionally
(an omitted optional field arrives as `none` and clears the stored
value), while omitted title/description/start/end keep their previous
values. -/
theorem update_recurrence_frame_effect (event : Event)
    (event_in : EventUpdate) (now : Int) :
    (applyEventUpdate event event_in now).recurrence_rule =
      event_in.recurrence_rule ∧
    (applyEventUpdate event event_in now).recurrence_end =
      event_in.recurrence_end ∧
    (event_in.title = none →
      (applyEventUpdate event event_in now).title = event.title) ∧
    (event_in.description = none →
      (applyEventUpdate event event_in now).description =
        event.description) ∧
    (event_in.start_datetime = none →
      (applyEventUpdate event event_in now).start_datetime =
        event.start_datetime) ∧
    (event_in.end_datetime = none →
      (applyEventUpdate event event_in now).end_datetime =
        event.end_datetime) := by
  refine ⟨rfl, rfl, ?_, ?_, ?_, ?_⟩ <;>
    (intro h; simp [applyEventUpdate, h])

/-- Witness for C10: the all-fields-omitted update request on a master
with a stored recurrence clears it and retains everything else. -/
theorem update_recurrence_frame_effect_witness :
    (applyEventUpdate exRec {} 300).recurrence_rule = none ∧
    (applyEventUpdate exRec {} 300).recurrence_end = none ∧
    (applyEventUpdate exRec {} 300).title = exRec.title ∧
    (applyEventUpdate exRec {} 300).start_datetime = exRec.start_datetime :=
  ⟨(update_recurrence_frame_effect exRec {} 300).1,
   (update_recurrence_frame_effect exRec {} 300).2.1,
   (update_recurrence_frame_effect exRec {} 300).2.2.1 rfl,
   (update_recurrence_frame_effect exRec {} 300).2.2.2.2.1 rfl⟩

/-- Keys of the emitted diff entries form a sublist of the new
snapshot's keys. -/
theorem computeDiff_keys_sublist (oldS newS : Snapshot) :
    ((computeDiff oldS newS).map (fun x => x.1)).Sublist
      (newS.map Prod.fst) := by
  induction newS with
  | nil => simp [computeDiff]
  | cons kv tl ih =>
    simp only [computeDiff, List.filterMap_cons] at ih ⊢
    by_cases h : snapGet oldS kv.1 ≠ kv.2
    · simp only [if_pos h, List.map_cons]
      exact ih.cons₂ kv.1
    · simp only [if_neg h, List.map_cons]
      exact ih.cons kv.1

/-- Membership in the diff output, characterized. -/
theorem mem_computeDiff (oldS newS : Snapshot) (k : String) (o n : Value) :
    (k, o, n) ∈ computeDiff oldS newS ↔
      ((k, n) ∈ newS ∧ snapGet oldS k = o ∧ o ≠ n) := by
  simp only [computeDiff, List.mem_filterMap]
  constructor
  · rintro ⟨⟨k', n'⟩, hmem, hf⟩
    simp only at hf
    by_cases h : snapGet oldS k' ≠ n'
    · rw [if_pos h] at hf
      obtain ⟨rfl, rfl, rfl⟩ :=
        Prod.mk.injEq .. ▸ Option.some_inj.mp hf
      exact ⟨hmem, rfl, h⟩
    · rw [if_neg h] at hf
      exact absurd hf (by simp)
  · rintro ⟨hmem, ho, hne⟩
    refine ⟨(k, n), hmem, ?_⟩
    simp only
    rw [ho, if_pos hne]

/-- C8: the diff iterates the new snapshot's key set and emits one
`(field, old, new)` entry exactly for the keys whose values differ under
direct value equality; keys absent from the new snapshot are never
emitted; and the first version of an event (no previous snapshot)
produces no `EventChange` rows at all. -/
theorem diff_engine_spec (oldS newS : Snapshot)
    (hkeys : (newS.map Prod.fst).Nodup) :
    ((computeDiff oldS newS).map (fun x => x.1)).Nodup ∧
    (∀ k o n, (k, o, n) ∈ computeDiff oldS newS ↔
       ((k, n) ∈ newS ∧ snapGet oldS k = o ∧ o ≠ n)) ∧
    (∀ k o n, (k, o, n) ∈ computeDiff oldS newS → k ∈ newS.map Prod.fst) ∧
    (∀ db e uid now, lastVersionFor db e.id = none →
       (record_event_version db e uid now).1.changes = db.changes) := by
  refine ⟨List.Nodup.sublist (computeDiff_keys_sublist oldS newS) hkeys,
    mem_computeDiff oldS newS, ?_, ?_⟩
  · intro k o n h
    rw [mem_computeDiff] at h
    exact List.mem_map.mpr ⟨(k, n), h.1, rfl⟩
  · intro db e uid now hlast
    rw [record_event_version_eq]
    simp [hlast]

/-- Witness for C8: the spec's diff example, snapshots
`{title: X, description: Y}` and `{title: X, description: Z}`. -/
theorem diff_engine_spec_witness :
    (snapY.map Prod.fst).Nodup ∧
    (("description", Value.s "Y", Value.s "Z") ∈ computeDiff snapX snapY ↔
      (("description", Value.s "Z") ∈ snapY ∧
       snapGet snapX "description" = .s "Y" ∧ Value.s "Y" ≠ .s "Z")) :=
  ⟨by decide,
   (diff_engine_spec snapX snapY (by decide)).2.1 "description"
     (.s "Y") (.s "Z")⟩

/-- `find?` over an append hits the left part first. -/
theorem find?_append_left (l₁ l₂ : List α) (p : α → Bool) (a : α)
    (h : l₁.find? p = some a) : (l₁ ++ l₂).find? p = some a := by
  induction l₁ with
  | nil => simp at h
  | cons x tl ih =>
    by_cases hx : p x
    · rw [List.find?_cons_of_pos _ hx] at h
      simpa [List.find?_cons_of_pos _ hx] using h
    · rw [List.find?_cons_of_neg _ hx] at h
      simpa [List.find?_cons_of_neg _ hx] using ih h

/-- Snapshot Codec round trip: reading the mutable fields back out of a
snapshot the system wrote returns exactly the event's fields. -/
theorem restoreFields_buildSnapshot (e : Event) :
    restoreFields (buildSnapshot e) =
      some (e.title, e.description, e.start_datetime, e.end_datetime) := by
  obtain ⟨i, ti, desc, sd, ed, cid, vn, ua, rr, re⟩ := e
  cases desc <;>
    simp [restoreFields, buildSnapshot, snapGet, optStr, List.lookup]

/-- C5: with the target version present and decodable, rollback
overwrites exactly title/description/start/end of the live row (id,
owner and the rest untouched), appends one brand-new version numbered
`previous_max + 1 > target`, and leaves every pre-existing version —
including the target — in place and retrievable; with the target version
absent it returns 404 and changes nothing. -/
theorem rollback_spec (db : DB) (eid vn uid : Nat) (now : Int) (ev : Event)
    (hev : findEvent db eid = some ev) :
    (findVersion db eid vn = none →
       rollback_event db eid vn uid now = (db, .versionNotFound)) ∧
    (∀ v t d sd ed, findVersion db eid vn = some v →
       restoreFields v.snapshot = some (t, d, sd, ed) →
       ∃ newv,
         (rollback_event db eid vn uid now).2 = .ok newv ∧
         findEvent (rollback_event db eid vn uid now).1 eid =
           some { ev with
                  title := t
                  description := d
                  start_datetime := sd
                  end_datetime := ed
                  updated_at := now } ∧
         (rollback_event db eid vn uid now).1.versions =
           db.versions ++ [newv] ∧
         newv.event_id = eid ∧
         newv.version_number = maxVn db eid + 1 ∧
         vn < newv.version_number ∧
         findVersion (rollback_event db eid vn uid now).1 eid vn =
           some v) := by
  constructor
  · intro hv
    simp [rollback_event, hev, hv]
  · intro v t d sd ed hv hr
    have hids := findEvent_some db eid ev hev
    have hvs := findVersion_some db eid vn v hv
    refine ⟨⟨ev.id, maxVn db ev.id + 1,
      buildSnapshot { ev with
        title := t
        description := d
        start_datetime := sd
        end_datetime := ed
        updated_at := now }, now, uid⟩, ?_, ?_, ?_, ?_, ?_, ?_, ?_⟩
    · simp only [rollback_event, hev, hv, hr, record_event_version_eq]
      rfl
    · simp only [rollback_event, hev, hv, hr, record_event_version_eq]
      have hput := findEvent_putEvent db eid ev
        { ev with
          title := t
          description := d
          start_datetime := sd
          end_datetime := ed
          updated_at := now } hev rfl
      simp only [findEvent] at hput ⊢
      exact hput
    · simp only [rollback_event, hev, hv, hr, record_event_version_eq]
      rfl
    · exact hids.1
    · rw [hids.1]
    · have hle : vn ≤ maxVn db eid :=
        hvs.2.2 ▸ le_maxVn db eid v hvs.1 hvs.2.1
      simp only [hids.1]
      omega
    · simp only [rollback_event, hev, hv, hr, record_event_version_eq]
      simp only [findVersion] at hv ⊢
      exact find?_append_left _ _ _ v hv

/-- Witness for C5: rolling event 1 back to version 1 in the one-event
store. -/
theorem rollback_spec_witness :
    findEvent exDbA 1 = some exEventA ∧
    (∃ newv,
       (rollback_event exDbA 1 1 7 200).2 = .ok newv ∧
       findEvent (rollback_event exDbA 1 1 7 200).1 1 =
         some { exEventA with
                title := "A"
                description := none
                start_datetime := 600
                end_datetime := 660
                updated_at := 200 } ∧
       (rollback_event exDbA 1 1 7 200).1.versions =
         exDbA.versions ++ [newv] ∧
       newv.event_id = 1 ∧
       newv.version_number = maxVn exDbA 1 + 1 ∧
       1 < newv.version_number ∧
       findVersion (rollback_event exDbA 1 1 7 200).1 1 1 =
         some ⟨1, 1, buildSnapshot exEventA, 100, 7⟩) :=
  ⟨by decide,
   (rollback_spec exDbA 1 1 7 200 exEventA (by decide)).2
     ⟨1, 1, buildSnapshot exEventA, 100, 7⟩ "A" none 600 660
     (by decide) (by decide)⟩

/-- C7: assuming `created_at` is monotone along version numbers (which
the store guarantees, stamping each appended version with the current
clock), `get_version_as_of` returns a stored version of the event with
the greatest `created_at <= t`, and returns 404 exactly when the event
is missing or no version is that old. -/
theorem as_of_spec (db : DB) (eid : Nat) (t : Int)
    (hmono : ∀ v ∈ db.versions, ∀ w ∈ db.versions,
       v.event_id = eid → w.event_id = eid →
       v.version_number ≤ w.version_number → v.created_at ≤ w.created_at) :
    (∀ v, get_version_as_of db eid t = some v →
       v ∈ db.versions ∧ v.event_id = eid ∧ v.created_at ≤ t ∧
       ∀ w ∈ db.versions, w.event_id = eid → w.created_at ≤ t →
         w.created_at ≤ v.created_at) ∧
    (get_version_as_of db eid t = none →
       findEvent db eid = none ∨
       ∀ w ∈ db.versions, w.event_id = eid → t < w.created_at) ∧
    (findEvent db eid = none → get_version_as_of db eid t = none) := by
  have hmemL : ∀ w : EventVersion,
      w ∈ db.versions.filter (fun v =>
        decide (v.event_id = eid) && decide (v.created_at ≤ t)) ↔
      (w ∈ db.versions ∧ w.event_id = eid ∧ w.created_at ≤ t) := by
    intro w
    simp [List.mem_filter, and_assoc]
  refine ⟨?_, ?_, ?_⟩
  · intro v hv
    rcases hfe : findEvent db eid with _ | ev
    · simp [get_version_as_of, hfe] at hv
    simp only [get_version_as_of, hfe] at hv
    have hvL := (hmemL v).mp (maxBy_mem _ _ _ hv)
    refine ⟨hvL.1, hvL.2.1, hvL.2.2, ?_⟩
    intro w hw hwid hwt
    obtain ⟨b, hb, hle⟩ :=
      maxBy_le_of_mem (fun v : EventVersion => v.version_number)
        (db.versions.filter (fun v =>
          decide (v.event_id = eid) && decide (v.created_at ≤ t))) w
        ((hmemL w).mpr ⟨hw, hwid, hwt⟩)
    have hbv : b = v := Option.some_inj.mp (hb ▸ hv)
    exact hmono w hw v hvL.1 hwid hvL.2.1 (hbv ▸ hle)
  · intro hnone
    rcases hfe : findEvent db eid with _ | ev
    · exact .inl rfl
    right
    simp only [get_version_as_of, hfe] at hnone
    have hLnilL := (maxBy_eq_none (fun v : EventVersion => v.version_number)
      (db.versions.filter (fun v =>
        decide (v.event_id = eid) && decide (v.created_at ≤ t)))).mp hnone
    intro w hw hwid
    by_contra hlt
    push_neg at hlt
    have hwL := (hmemL w).mpr ⟨hw, hwid, hlt⟩
    rw [hLnilL] at hwL
    simp at hwL
  · intro hfe
    simp [get_version_as_of, hfe]

/-- Witness for C7: querying the two-version store at instant 150
(between the creation at 100 and the rollback at 200). -/
theorem as_of_spec_witness :
    (∀ v ∈ exDbA2.versions, ∀ w ∈ exDbA2.versions,
       v.event_id = 1 → w.event_id = 1 →
       v.version_number ≤ w.version_number →
       v.created_at ≤ w.created_at) ∧
    (∀ v, get_version_as_of exDbA2 1 150 = some v →
       v ∈ exDbA2.versions ∧ v.event_id = 1 ∧ v.created_at ≤ 150 ∧
       ∀ w ∈ exDbA2.versions, w.event_id = 1 → w.created_at ≤ 150 →
         w.created_at ≤ v.created_at) :=
  ⟨by decide, (as_of_spec exDbA2 1 150 (by decide)).1⟩

/-- A successfully parsed rule part keeps the interval positive. -/
theorem parseRulePart_interval_pos {acc acc' : RuleAcc} {p : List Char}
    (h : parseRulePart acc p = some acc') (hpos : 0 < acc.interval) :
    0 < acc'.interval := by
  unfold parseRulePart at h
  split at h
  · split_ifs at h
    all_goals
      first
        | exact Option.noConfusion h
        | (cases h; exact hpos)
        | (split at h
           all_goals
             first
               | exact Option.noConfusion h
               | (cases h
                  first
                    | exact hpos
                    | exact Nat.succ_pos _))
  · exact Option.noConfusion h

/-- Folding rule parts keeps the interval positive. -/
theorem foldlM_rule_interval_pos (ps : List (List Char)) :
    ∀ acc acc' : RuleAcc, ps.foldlM parseRulePart acc = some acc' →
      0 < acc.interval → 0 < acc'.interval := by
  induction ps with
  | nil =>
    intro acc acc' h hpos
    simp only [List.foldlM_nil] at h
    cases h
    exact hpos
  | cons p tl ih =>
    intro acc acc' h hpos
    rw [List.foldlM_cons] at h
    rcases hp : parseRulePart acc p with _ | a
    · rw [hp] at h
      simp at h
    · rw [hp] at h
      simp only [Option.pure_def, Option.bind_eq_bind, Option.some_bind] at h
      exact ih a acc' h (parseRulePart_interval_pos hp hpos)

/-- Every rule the parser accepts has a positive interval. -/
theorem parseRRule_interval_pos {s : String} {r : RRule}
    (h : parseRRule s = some r) : 0 < r.interval := by
  unfold parseRRule at h
  split at h
  · exact Option.noConfusion h
  next acc heq =>
    split at h
    · exact Option.noConfusion h
    next f hfr =>
      cases h
      exact foldlM_rule_interval_pos _ _ _ heq (by decide)

/-- A parsed rule's occurrence gap is positive. -/
theorem step_pos {r : RRule} (hpos : 0 < r.interval) : 0 < r.step := by
  have hf : 0 < r.freq.stepMinutes := by
    cases r.freq <;> simp [Freq.stepMinutes]
  have hi : (0 : Int) < (r.interval : Int) := by exact_mod_cast hpos
  exact mul_pos hi hf

/-- `rule.between` characterized: exactly the rule's occurrences,
replayed from the anchor, that fall inside the inclusive window and
survive the rule's own `COUNT`/`UNTIL` guards. -/
theorem mem_ruleBetween {r : RRule} (hpos : 0 < r.interval)
    (dtstart a b t : Int) :
    t ∈ ruleBetween r dtstart a b ↔
      ∃ n : Nat, r.okCount n = true ∧
        r.okUntil (r.occAt dtstart n) = true ∧
        a ≤ r.occAt dtstart n ∧ r.occAt dtstart n ≤ b ∧
        t = r.occAt dtstart n := by
  have hstep : 0 < r.step := step_pos hpos
  constructor
  · intro ht
    simp only [ruleBetween, List.mem_filterMap, List.mem_range] at ht
    obtain ⟨n, hn, hcond⟩ := ht
    split at hcond
    case isTrue hC =>
      obtain rfl : t = r.occAt dtstart n := (Option.some_inj.mp hcond).symm
      simp only [Bool.and_eq_true, decide_eq_true_eq] at hC
      exact ⟨n, hC.1.1.1, hC.1.1.2, hC.1.2, hC.2, rfl⟩
    case isFalse _ => exact absurd hcond (by simp)
  · rintro ⟨n, hcount, huntil, ha, hb, rfl⟩
    simp only [ruleBetween, List.mem_filterMap, List.mem_range]
    refine ⟨n, ?_, ?_⟩
    · have hb' : (n : Int) * r.step ≤ b - dtstart := by
        simp only [RRule.occAt] at hb
        omega
      have hS : ((r.step.toNat : Int)) = r.step :=
        Int.toNat_of_nonneg hstep.le
      have hSpos : 0 < r.step.toNat := by omega
      rw [Nat.lt_succ_iff, Nat.le_div_iff_mul_le hSpos]
      have hcast : ((n * r.step.toNat : Nat) : Int) = (n : Int) * r.step := by
        push_cast
        rw [hS]
      omega
    · simp [hcount, huntil, ha, hb]

/-- C6 (amended): for a recurring master, expansion inside a window is
anchored at the master's start instant and bounded by the window and by
the rule string's own `COUNT`/`UNTIL` guards — the stored
`recurrence_end` column plays no part; every produced occurrence keeps
the master's duration; a malformed rule yields zero occurrences and
never raises. -/
theorem recurrence_expansion_amended (ev : Event) (ws we : Int) :
    (∀ rs, ev.recurrence_rule = some rs → parseRRule rs = none →
       expandEvent ev ws we = []) ∧
    (∀ rs r, ev.recurrence_rule = some rs → parseRRule rs = some r →
       ∀ x, x ∈ expandEvent ev ws we ↔
         ∃ n : Nat, r.okCount n = true ∧
           r.okUntil (r.occAt ev.start_datetime n) = true ∧
           ws ≤ r.occAt ev.start_datetime n ∧
           r.occAt ev.start_datetime n ≤ we ∧
           x = mkOccurrence ev (r.occAt ev.start_datetime n)) ∧
    (∀ x ∈ expandEvent ev ws we,
       x.end_datetime = x.start_datetime +
         (ev.end_datetime - ev.start_datetime)) := by
  refine ⟨?_, ?_, ?_⟩
  · intro rs hrs hnone
    by_cases h0 : rs = "" <;> simp [expandEvent, hrs, hnone, h0]
  · intro rs r hrs hp x
    have hpos := parseRRule_interval_pos hp
    have h0 : rs ≠ "" := by
      intro h
      rw [h] at hp
      have hemp : parseRRule "" = none := by decide
      rw [hemp] at hp
      cases hp
    simp only [expandEvent, hrs, if_neg h0, hp, List.mem_map]
    constructor
    · rintro ⟨occ, hocc, rfl⟩
      obtain ⟨n, h1, h2, h3, h4, rfl⟩ :=
        (mem_ruleBetween hpos ev.start_datetime ws we occ).mp hocc
      exact ⟨n, h1, h2, h3, h4, rfl⟩
    · rintro ⟨n, h1, h2, h3, h4, rfl⟩
      exact ⟨r.occAt ev.start_datetime n,
        (mem_ruleBetween hpos ev.start_datetime ws we _).mpr
          ⟨n, h1, h2, h3, h4, rfl⟩, rfl⟩
  · intro x hx
    rcases hrr : ev.recurrence_rule with _ | rs
    · simp [expandEvent, hrr] at hx
    by_cases h0 : rs = ""
    · simp [expandEvent, hrr, h0] at hx
    rcases hp : parseRRule rs with _ | r
    · simp [expandEvent, hrr, h0, hp] at hx
    simp only [expandEvent, hrr, if_neg h0, hp, List.mem_map] at hx
    obtain ⟨occ, _, rfl⟩ := hx
    simp [mkOccurrence]

/-- C6 (counterexample): the daily master `exRec` is selected for the
window `[0, 5760]` (its `recurrence_end`, minute 2880, is inside the
window), yet expansion emits the occurrence starting at minute 4320 —
after the stored recurrence end, because only the rule string bounds the
replay. -/
theorem recurrence_end_ignored_in_expansion :
    recurringSelected exRec 0 5760 = true ∧
    exRec.recurrence_end = some 2880 ∧
    (4320 : Int) ∈ (expandEvent exRec 0 5760).map EventRead.start_datetime ∧
    ((2880 : Int) < 4320) := by decide

/-- Witness for C6 (amended): the spec's weekly/4-occurrence scenario —
the second occurrence, one week (10080 minutes) after the anchor, is
produced inside a five-week window. -/
theorem recurrence_expansion_amended_witness :
    exWeekly.recurrence_rule = some "FREQ=WEEKLY;COUNT=4" ∧
    parseRRule "FREQ=WEEKLY;COUNT=4" = some exRuleWeekly ∧
    (mkOccurrence exWeekly 10080 ∈ expandEvent exWeekly 0 50400) :=
  ⟨rfl, by decide,
   ((recurrence_expansion_amended exWeekly 0 50400).2.1
       "FREQ=WEEKLY;COUNT=4" exRuleWeekly rfl (by decide)
       (mkOccurrence exWeekly 10080)).mpr
     ⟨1, by decide, by decide, by decide, by decide, by decide⟩⟩

end NeoFi
